import Mathlib

/-!
Shallow embedding of the offline synchronization engine of
src/QR-Attendance/offline-sync-service.js (class OfflineSyncService), together
with proofs of the specified properties.

Records are JavaScript objects; the fields that the engine ever inspects are
id, studentId, date, event and the _synced flag.  All remaining data fields are
summarized by one opaque field (extra), which the engine only copies via object
spread.  An absent field is None; JavaScript truthiness on the string fields
(undefined and the empty string are falsy) is modelled by truthyS.
-/

/-- JavaScript truthiness of an optional string field: undefined (none) and
the empty string are falsy, every other string is truthy. -/
def truthyS : Option String → Bool
  | none => false
  | some s => !(s == "")

/-- JavaScript template-string rendering of a possibly undefined field:
an undefined value prints as the text undefined. -/
def jsStr : Option String → String
  | none => "undefined"
  | some s => s

/-- A data record as the sync engine sees it: the key fields it inspects
(id, studentId, date, event), the internal _synced flag, and one opaque field
standing for all other data carried along by object spread. -/
structure DataRec where
  id : Option String
  studentId : Option String
  date : Option String
  event : Option String
  synced : Option Bool
  extra : Option String
deriving DecidableEq

/-- Object-spread override of one field: the update's value wins when present
(modelling the field-wise meaning of a JS spread of new over old). -/
def ovr (upd old : Option α) : Option α :=
  match upd with
  | some v => some v
  | none => old

/-- Field-wise object spread of an update over an existing record
(the JS expression spreading old first and the update second). -/
def spread2 (old upd : DataRec) : DataRec :=
  { id := ovr upd.id old.id
    studentId := ovr upd.studentId old.studentId
    date := ovr upd.date old.date
    event := ovr upd.event old.event
    synced := ovr upd.synced old.synced
    extra := ovr upd.extra old.extra }

/-- The per-item unique key of mergeData (offline-sync-service.js lines
433-446).  Under the id key spec a truthy studentId is preferred, then a truthy
id, otherwise null; under the studentId key spec only a truthy studentId keys
the record; any other key spec builds the attendance composite template string
(JS interpolation turns an undefined field into the text undefined). -/
def getKey (uniqueKey : String) (item : DataRec) : Option String :=
  if uniqueKey = "id" then
    if truthyS item.studentId then some ("student_" ++ jsStr item.studentId)
    else if truthyS item.id then some ("id_" ++ jsStr item.id)
    else none
  else if uniqueKey = "studentId" then
    if truthyS item.studentId then some ("student_" ++ jsStr item.studentId)
    else none
  else
    some (jsStr item.studentId ++ "_" ++ jsStr item.date ++ "_" ++ jsStr item.event)

/-- One iteration of the forEach body of mergeData (lines 449-464): the item is
pushed and its key recorded exactly when the key is truthy (non-null and
non-empty) and not seen before.  The state is the pair (merged, seenKeys). -/
def addIfNew (gk : DataRec → Option String) (st : List DataRec × List String)
    (item : DataRec) : List DataRec × List String :=
  match gk item with
  | none => st
  | some k => if k = "" ∨ k ∈ st.2 then st else (st.1 ++ [item], st.2 ++ [k])

/-- mergeData (offline-sync-service.js lines 427-467): walk the local records,
then the remote ones, pushing each record whose key has not been seen. -/
def mergeData (localData firebaseData : List DataRec) (uniqueKey : String) :
    List DataRec :=
  (firebaseData.foldl (addIfNew (getKey uniqueKey))
    (localData.foldl (addIfNew (getKey uniqueKey)) ([], []))).1

/-- The duplicate test of saveToLocalStorage (lines 206-219, and re-used
verbatim as its findIndex and update predicates, lines 226-237 and 246-257):
with both ids truthy the decision is id equality alone; otherwise, with both
studentIds truthy, the full (studentId, date, event) triple is compared when
all four of those fields are truthy and the studentId alone otherwise. -/
def isDupMatch (data item : DataRec) : Bool :=
  if truthyS data.id && truthyS item.id then item.id == data.id
  else if truthyS data.studentId && truthyS item.studentId then
    if truthyS data.date && truthyS data.event && truthyS item.date && truthyS item.event then
      item.studentId == data.studentId && item.date == data.date && item.event == data.event
    else item.studentId == data.studentId
  else false

/-- The keep test of the delete branch of saveToLocalStorage (lines 268-279):
the filter keeps an item unless it matches the delete criteria. -/
def keepOnDelete (data item : DataRec) : Bool :=
  if truthyS data.id && truthyS item.id then !(item.id == data.id)
  else if truthyS data.studentId && truthyS item.studentId then
    if truthyS data.date && truthyS data.event && truthyS item.date && truthyS item.event then
      !(item.studentId == data.studentId && item.date == data.date && item.event == data.event)
    else !(item.studentId == data.studentId)
  else true

/-- A freshly pushed record (lines 223 and 264): the incoming data with the
_synced flag defaulted to false when the data does not carry one. -/
def pushNew (data : DataRec) : DataRec :=
  { data with synced := some (data.synced.getD false) }

/-- The in-place update of a matched record (lines 238-242 and 258-261):
spread the existing item, then the incoming data, then force _synced to the
incoming value when supplied and the existing one otherwise. -/
def updMerge (old data : DataRec) : DataRec :=
  { spread2 old data with synced := ovr data.synced old.synced }

/-- Replace the first list element satisfying p by its image under f, as the
JS findIndex followed by an indexed assignment does; when nothing matches the
list is unchanged (findIndex returned -1). -/
def updateFirst (p : DataRec → Bool) (f : DataRec → DataRec) :
    List DataRec → List DataRec
  | [] => []
  | x :: xs => if p x then f x :: xs else x :: updateFirst p f xs

/-- The local-storage operation verb of saveToLocalStorage. -/
inductive LsOp
  | add
  | update
  | delete
deriving DecidableEq

/-- saveToLocalStorage (lines 188-304) at the level of one collection's parsed
record list.  add pushes unless the duplicate test matches some item, in which
case it updates the first match; update updates the first match and pushes when
nothing matches (so add and update coincide); delete filters by the keep test.
The durable setItem, the legacy-key mirrors and the quota-recovery path of the
surrounding try/catch are the storage back end and are not modelled here. -/
def saveToLocalStorage (items : List DataRec) (data : DataRec) (operation : LsOp) :
    List DataRec :=
  match operation with
  | LsOp.add =>
    if items.any (isDupMatch data) then
      updateFirst (isDupMatch data) (fun old => updMerge old data) items
    else items ++ [pushNew data]
  | LsOp.update =>
    if items.any (isDupMatch data) then
      updateFirst (isDupMatch data) (fun old => updMerge old data) items
    else items ++ [pushNew data]
  | LsOp.delete => items.filter (keepOnDelete data)

/-- The criteria test of markAsSynced (lines 316-327): unlike the duplicate
test, only the criteria's fields are truthiness-checked, and the item's fields
are compared directly (an absent item field simply fails the equality). -/
def critMatch (criteria item : DataRec) : Bool :=
  if truthyS criteria.id && truthyS item.id then item.id == criteria.id
  else if truthyS criteria.studentId then
    if truthyS criteria.date && truthyS criteria.event then
      item.studentId == criteria.studentId && item.date == criteria.date
        && item.event == criteria.event
    else item.studentId == criteria.studentId
  else false

/-- markAsSynced (lines 307-343) on one collection's record list: every item
matching the criteria gets _synced set to true. -/
def markAsSynced (items : List DataRec) (criteria : DataRec) : List DataRec :=
  items.map (fun item =>
    if critMatch criteria item then { item with synced := some true } else item)

/-- A pending operation as enqueued by addToPendingQueue (lines 161-174).
The nondeterministic syncId and ISO timestamp it also attaches are opaque
metadata never used by the modelled control flow and are omitted. -/
structure PendingOp where
  type : String
  data : DataRec
  collection : Option String
  synced : Bool
deriving DecidableEq

/-- The engine state: the connectivity flag, the drain guard, the per-collection
local record sets (localStorage after JSON parsing), and the durable pending
queue (the JSON array behind pendingSyncQueue). -/
structure SyncState where
  isOnline : Bool
  syncInProgress : Bool
  store : String → List DataRec
  queue : List PendingOp

/-- Pointwise update of one collection's record set. -/
def storePut (store : String → List DataRec) (c : String) (items : List DataRec) :
    String → List DataRec :=
  fun k => if k = c then items else store k

/-- resultWithTimeout (lines 113-120) races a remote call against a timer: the
caller observes the operation's own outcome unless the deadline elapsed first,
in which case it observes a rejection (modelled as none). -/
def resultWithTimeout (res : Option ρ) (timedOut : Bool) : Option ρ :=
  if timedOut then none else res

/-- The verb derivation of executeWithOfflineSupport (lines 913-918): an opType
containing update (either case) maps to update, else one containing delete maps
to delete, else add. -/
def containsSub : List Char → List Char → Bool
  | [], pat => pat.isEmpty
  | h :: t, pat => pat.isPrefixOf (h :: t) || containsSub t pat

/-- jsIncludes s pat is the JS String.prototype.includes substring test. -/
def jsIncludes (s pat : String) : Bool :=
  containsSub s.toList pat.toList

/-- deriveLsOp maps an operation type name to the local-storage verb
(executeWithOfflineSupport lines 913-918). -/
def deriveLsOp (opType : String) : LsOp :=
  if jsIncludes opType "update" || jsIncludes opType "Update" then LsOp.update
  else if jsIncludes opType "delete" || jsIncludes opType "Delete" then LsOp.delete
  else LsOp.add

/-- The observable result of executeWithOfflineSupport: a remote result, the
local collection contents, the JS null returned when no collection was named,
or a rejected promise.  The err constructor exists to express the error-
propagation claim; executeWithOfflineSupport never produces it because both of
its failure paths are caught (lines 938-948 and 949-959). -/
inductive ExecRes (ρ : Type)
  | remote (result : ρ)
  | localData (items : List DataRec)
  | nil
  | err

/-- One observable effect of a call, in program order. -/
inductive Ev
  | localSave (collection : String) (op : LsOp)
  | remoteAttempt
  | markSyncedEv (collection : String)
  | enqueueEv (opType : String)
deriving DecidableEq

/-- The outcome of one call to executeWithOfflineSupport: the successor engine
state, the value handed back to the caller, and the effect trace. -/
structure ExecOut (ρ : Type) where
  state : SyncState
  result : ExecRes ρ
  trace : List Ev

/-- executeWithOfflineSupport (lines 908-960).  The verb is derived from the
opType, the record is saved locally first whenever a truthy collection name was
given, then: online with Firebase available, the remote call is attempted
through the timeout race — success marks the record synced and returns the
remote result, failure or timeout enqueues a pending operation and returns the
local collection contents; offline (or Firebase absent), the remote call is
skipped and the operation is enqueued directly.  outcome is the value of the
timeout race: some r on success, none on rejection or timeout. -/
def executeWithOfflineSupport (st : SyncState) (opType : String) (data : DataRec)
    (collectionName : Option String) (fbAvail : Bool) (outcome : Option ρ) :
    ExecOut ρ :=
  let lsOp := deriveLsOp opType
  let hasColl := truthyS collectionName
  let cn := collectionName.getD ""
  let st1 : SyncState :=
    if hasColl then
      { st with store := storePut st.store cn (saveToLocalStorage (st.store cn) data lsOp) }
    else st
  let ev1 : List Ev := if hasColl then [Ev.localSave cn lsOp] else []
  if st.isOnline && fbAvail then
    match outcome with
    | some r =>
      let st2 : SyncState :=
        if hasColl then
          { st1 with store := storePut st1.store cn (markAsSynced (st1.store cn) data) }
        else st1
      ⟨st2, ExecRes.remote r,
        ev1 ++ [Ev.remoteAttempt] ++ (if hasColl then [Ev.markSyncedEv cn] else [])⟩
    | none =>
      ⟨{ st1 with queue := st1.queue ++ [⟨opType, data, collectionName, false⟩] },
        if hasColl then ExecRes.localData (st1.store cn) else ExecRes.nil,
        ev1 ++ [Ev.remoteAttempt, Ev.enqueueEv opType]⟩
  else
    ⟨{ st1 with queue := st1.queue ++ [⟨opType, data, collectionName, false⟩] },
      if hasColl then ExecRes.localData (st1.store cn) else ExecRes.nil,
      ev1 ++ [Ev.enqueueEv opType]⟩

/-- syncPendingData (lines 470-497 and 502-896) as one atomic drain pass over
the durable queue.  A call while a drain is in progress, or while offline,
returns with nothing read or written; an empty queue or an unavailable Firebase
handle releases the guard and stops; otherwise every queued operation not yet
synced is attempted (o op gives the per-operation success of the guarded
remote work), successful ones are marked synced, and the queue is rewritten in
one batch keeping exactly the unsynced operations, with the guard released. -/
def syncPendingData (st : SyncState) (fbAvail : Bool) (o : PendingOp → Bool) :
    SyncState :=
  if st.syncInProgress then st
  else if !st.isOnline then st
  else if st.queue.isEmpty then { st with syncInProgress := false }
  else if !fbAvail then { st with syncInProgress := false }
  else
    let processed := st.queue.map (fun op =>
      if op.synced then op else if o op then { op with synced := true } else op)
    { st with queue := processed.filter (fun op => !op.synced), syncInProgress := false }

/-- The connectivity signals reaching the monitor: the browser online/offline
events (lines 14-26), the 10-second poll (lines 29-51), an explicit
checkOnlineStatus call (lines 123-134), and the visibility/focus handlers
(lines 68-88).  poll and statusCheck carry the navigator.onLine value read. -/
inductive Signal
  | browserOnline
  | browserOffline
  | poll (navOnline : Bool)
  | statusCheck (navOnline : Bool)
  | visibilityChange (hidden : Bool)
  | focus
deriving DecidableEq

/-- Delivery of one connectivity signal: the new value of the online flag and
the number of offlineStatusChanged notifications emitted synchronously.  The
browser event handlers notify unconditionally and their handleOnline or
handleOffline continuation notifies again (lines 17+94 and 24+108), so two
notifications are emitted even without a flip; the poll notifies only on a flip
but then also runs the handleOnline/handleOffline continuation (lines 34-41);
checkOnlineStatus notifies exactly once on a flip (lines 129-131); the
visibility and focus handlers never touch the flag nor notify. -/
def deliverSignal (isOnline : Bool) : Signal → Bool × Nat
  | Signal.browserOnline => (true, 2)
  | Signal.browserOffline => (false, 2)
  | Signal.poll nav => if isOnline == nav then (nav, 0) else (nav, 2)
  | Signal.statusCheck nav => if isOnline == nav then (nav, 0) else (nav, 1)
  | Signal.visibilityChange _ => (isOnline, 0)
  | Signal.focus => (isOnline, 0)

/-- The durable key of the pending queue (line 9). -/
def pendingSyncKey : String := "pendingSyncQueue"

/-- The per-collection key namespace of local record sets (line 10). -/
def offlinePfx : String := "offline_"

/-- getPendingSyncQueue (lines 150-158) at the string-storage level: ls is
localStorage.getItem, parse is JSON.parse specialised to an array of pending
operations (none models both a parse exception, caught at line 154, and a
non-array value).  An absent or empty stored string yields the empty list. -/
def getPendingSyncQueue (ls : String → Option String)
    (parse : String → Option (List PendingOp)) : List PendingOp :=
  match ls pendingSyncKey with
  | none => []
  | some s => if s == "" then [] else (parse s).getD []

/-- getFromLocalStorage (lines 404-423) at the string-storage level: the
prefixed collection key is read first; a falsy result falls back to the legacy
attendanceRecords or barcodeStudents keys for those two collections; a falsy
final value yields the empty list, and a parse failure (caught at line 419)
also yields the empty list. -/
def getFromLocalStorage (ls : String → Option String)
    (parse : String → Option (List DataRec)) (collection : String) :
    List DataRec :=
  let primary := ls (offlinePfx ++ collection)
  let data :=
    if truthyS primary then primary
    else if collection == "attendance" then ls "attendanceRecords"
    else if collection == "students" then ls "barcodeStudents"
    else primary
  match data with
  | none => []
  | some s => if s == "" then [] else (parse s).getD []

/-- One offline add as performed through executeWithOfflineSupport while
disconnected: the successor engine state of a call naming collection cn with
record r (the remote call never runs, so its outcome is irrelevant). -/
def offlineAddStep (opType cn : String) (r : DataRec) (st : SyncState) : SyncState :=
  (executeWithOfflineSupport st opType r (some cn) true (none : Option Unit)).state

/-! ### Sample records and states used by concrete instances -/

/-- A student record with id X and studentId S. -/
def rIdX : DataRec := ⟨some "X", some "S", none, none, none, none⟩

/-- A student record with id Y and the same studentId S as rIdX. -/
def rIdY : DataRec := ⟨some "Y", some "S", none, none, none, none⟩

/-- A record keyed by studentId A carrying payload x. -/
def rAx : DataRec := ⟨none, some "A", none, none, none, some "x"⟩

/-- A distinct record with the same studentId A but payload y. -/
def rAy : DataRec := ⟨none, some "A", none, none, none, some "y"⟩

/-- A record keyed by studentId B. -/
def rBv : DataRec := ⟨none, some "B", none, none, none, none⟩

/-- A record with neither an id nor a studentId: keyless under the id and
studentId key specs. -/
def rNoKey : DataRec := ⟨none, none, some "2024-01-01", some "E1", none, none⟩

/-- A fresh offline engine state with empty stores and queue. -/
def emptyState : SyncState := ⟨false, false, fun _ => [], []⟩

/-- An online engine state with empty stores and queue. -/
def onlineState : SyncState := ⟨true, false, fun _ => [], []⟩

/-- An online engine state with a drain already in progress. -/
def busyState : SyncState := ⟨true, true, fun _ => [], []⟩

/-- A queued, unsynced pending add operation. -/
def pendingAdd : PendingOp := ⟨"addStudent", rAx, some "students", false⟩

/-- An online, idle engine state with one queued operation. -/
def queuedState : SyncState := ⟨true, false, fun _ => [], [pendingAdd]⟩

/-! ### Lemmas about mergeData -/

theorem append_ne_empty_left (a b : String) (ha : a.length ≠ 0) : a ++ b ≠ "" := by
  intro h
  have h2 := congrArg String.length h
  rw [String.length_append] at h2
  have e2 : "".length = 0 := rfl
  omega

theorem getKey_ne_empty (u : String) (r : DataRec) (k : String)
    (h : getKey u r = some k) : k ≠ "" := by
  intro hk
  subst hk
  unfold getKey at h
  split_ifs at h <;>
    first
      | exact Option.noConfusion h
      | · injection h with h2
          revert h2
          first
            | exact append_ne_empty_left _ _ (by decide)
            | · intro h2
                have h3 := congrArg String.length h2
                rw [String.length_append, String.length_append,
                  String.length_append] at h3
                have e1 : "_".length = 1 := rfl
                have e2 : "".length = 0 := rfl
                omega

theorem addIfNew_of_none (gk : DataRec → Option String)
    (st : List DataRec × List String) (x : DataRec) (hgx : gk x = none) :
    addIfNew gk st x = st := by
  simp [addIfNew, hgx]

theorem addIfNew_of_old (gk : DataRec → Option String)
    (st : List DataRec × List String) (x : DataRec) (k : String)
    (hgx : gk x = some k) (hc : k = "" ∨ k ∈ st.2) :
    addIfNew gk st x = st := by
  simp [addIfNew, hgx, hc]

theorem addIfNew_of_fresh (gk : DataRec → Option String)
    (st : List DataRec × List String) (x : DataRec) (k : String)
    (hgx : gk x = some k) (hc : ¬(k = "" ∨ k ∈ st.2)) :
    addIfNew gk st x = (st.1 ++ [x], st.2 ++ [k]) := by
  simp only [addIfNew, hgx]
  rw [if_neg hc]

theorem foldl_addIfNew_snd_eq (gk : DataRec → Option String) :
    ∀ (xs : List DataRec) (st : List DataRec × List String),
      st.2 = st.1.filterMap gk →
      (xs.foldl (addIfNew gk) st).2 = (xs.foldl (addIfNew gk) st).1.filterMap gk := by
  intro xs
  induction xs with
  | nil => intro st h; simpa using h
  | cons x xs ih =>
    intro st h
    rw [List.foldl_cons]
    apply ih
    cases hgx : gk x with
    | none => rw [addIfNew_of_none gk st x hgx]; exact h
    | some k =>
      by_cases hc : k = "" ∨ k ∈ st.2
      · rw [addIfNew_of_old gk st x k hgx hc]; exact h
      · rw [addIfNew_of_fresh gk st x k hgx hc]
        simp [List.filterMap_append, hgx, h]

theorem foldl_addIfNew_snd_nodup (gk : DataRec → Option String) :
    ∀ (xs : List DataRec) (st : List DataRec × List String),
      st.2.Nodup → (xs.foldl (addIfNew gk) st).2.Nodup := by
  intro xs
  induction xs with
  | nil => intro st h; simpa using h
  | cons x xs ih =>
    intro st h
    rw [List.foldl_cons]
    apply ih
    cases hgx : gk x with
    | none => rw [addIfNew_of_none gk st x hgx]; exact h
    | some k =>
      by_cases hc : k = "" ∨ k ∈ st.2
      · rw [addIfNew_of_old gk st x k hgx hc]; exact h
      · rw [addIfNew_of_fresh gk st x k hgx hc]
        push_neg at hc
        simp [List.nodup_append, h, hc.2]

theorem foldl_addIfNew_snd_mem (gk : DataRec → Option String)
    (hk : ∀ r k, gk r = some k → k ≠ "") :
    ∀ (xs : List DataRec) (st : List DataRec × List String) (k : String),
      (k ∈ (xs.foldl (addIfNew gk) st).2 ↔ k ∈ st.2 ∨ k ∈ xs.filterMap gk) := by
  intro xs
  induction xs with
  | nil => intro st k; simp
  | cons x xs ih =>
    intro st k
    rw [List.foldl_cons]
    cases hgx : gk x with
    | none =>
      rw [addIfNew_of_none gk st x hgx, ih]
      simp [List.filterMap_cons, hgx]
    | some kx =>
      have hkx : kx ≠ "" := hk x kx hgx
      by_cases hc : kx = "" ∨ kx ∈ st.2
      · have hmem : kx ∈ st.2 := by
          rcases hc with hc | hc
          · exact absurd hc hkx
          · exact hc
        rw [addIfNew_of_old gk st x kx hgx hc, ih]
        simp only [List.filterMap_cons, hgx, List.mem_cons]
        constructor
        · rintro (h | h)
          · exact Or.inl h
          · exact Or.inr (Or.inr h)
        · rintro (h | h | h)
          · exact Or.inl h
          · exact Or.inl (h ▸ hmem)
          · exact Or.inr h
      · rw [addIfNew_of_fresh gk st x kx hgx hc, ih]
        simp only [List.mem_append, List.mem_singleton, List.filterMap_cons, hgx,
          List.mem_cons]
        tauto

theorem foldl_addIfNew_fst_append (gk : DataRec → Option String) :
    ∀ (xs : List DataRec) (st : List DataRec × List String),
      ∃ t, (xs.foldl (addIfNew gk) st).1 = st.1 ++ t ∧
        ∀ r ∈ t, r ∈ xs ∧ ∃ k, gk r = some k ∧ k ∉ st.2 := by
  intro xs
  induction xs with
  | nil => intro st; exact ⟨[], by simp⟩
  | cons x xs ih =>
    intro st
    rw [List.foldl_cons]
    cases hgx : gk x with
    | none =>
      rw [addIfNew_of_none gk st x hgx]
      obtain ⟨t, ht1, ht2⟩ := ih st
      exact ⟨t, ht1, fun r hr => ⟨List.mem_cons_of_mem _ (ht2 r hr).1, (ht2 r hr).2⟩⟩
    | some kx =>
      by_cases hc : kx = "" ∨ kx ∈ st.2
      · rw [addIfNew_of_old gk st x kx hgx hc]
        obtain ⟨t, ht1, ht2⟩ := ih st
        exact ⟨t, ht1, fun r hr => ⟨List.mem_cons_of_mem _ (ht2 r hr).1, (ht2 r hr).2⟩⟩
      · rw [addIfNew_of_fresh gk st x kx hgx hc]
        push_neg at hc
        obtain ⟨t, ht1, ht2⟩ := ih (st.1 ++ [x], st.2 ++ [kx])
        refine ⟨x :: t, ?_, ?_⟩
        · rw [ht1]; simp
        · intro r hr
          rcases List.mem_cons.1 hr with hr | hr
          · subst hr
            exact ⟨List.mem_cons_self _ _, kx, hgx, hc.2⟩
          · obtain ⟨k, hk1, hk2⟩ := (ht2 r hr).2
            refine ⟨List.mem_cons_of_mem _ (ht2 r hr).1, k, hk1, fun hmem => ?_⟩
            exact hk2 (List.mem_append_left _ hmem)

theorem foldl_addIfNew_fst_mem (gk : DataRec → Option String)
    (hk : ∀ r k, gk r = some k → k ≠ "") :
    ∀ (xs : List DataRec) (st : List DataRec × List String) (r : DataRec),
      (xs.filterMap gk).Nodup →
      (r ∈ (xs.foldl (addIfNew gk) st).1 ↔
        r ∈ st.1 ∨ (r ∈ xs ∧ ∃ k, gk r = some k ∧ k ∉ st.2)) := by
  intro xs
  induction xs with
  | nil => intro st r _; simp
  | cons x xs ih =>
    intro st r hnd
    rw [List.foldl_cons]
    cases hgx : gk x with
    | none =>
      have hnd2 : (xs.filterMap gk).Nodup := by
        simpa [List.filterMap_cons, hgx] using hnd
      rw [addIfNew_of_none gk st x hgx, ih st r hnd2]
      constructor
      · rintro (h | ⟨h1, h2⟩)
        · exact Or.inl h
        · exact Or.inr ⟨List.mem_cons_of_mem _ h1, h2⟩
      · rintro (h | ⟨h1, k, hk1, hk2⟩)
        · exact Or.inl h
        · rcases List.mem_cons.1 h1 with h1 | h1
          · subst h1; rw [hgx] at hk1; exact Option.noConfusion hk1
          · exact Or.inr ⟨h1, k, hk1, hk2⟩
    | some kx =>
      have hndc : kx ∉ xs.filterMap gk ∧ (xs.filterMap gk).Nodup := by
        rw [List.filterMap_cons, hgx] at hnd
        exact ⟨(List.nodup_cons.1 hnd).1, (List.nodup_cons.1 hnd).2⟩
      by_cases hc : kx = "" ∨ kx ∈ st.2
      · have hmem : kx ∈ st.2 := by
          rcases hc with hc | hc
          · exact absurd hc (hk x kx hgx)
          · exact hc
        rw [addIfNew_of_old gk st x kx hgx hc, ih st r hndc.2]
        constructor
        · rintro (h | ⟨h1, h2⟩)
          · exact Or.inl h
          · exact Or.inr ⟨List.mem_cons_of_mem _ h1, h2⟩
        · rintro (h | ⟨h1, k, hk1, hk2⟩)
          · exact Or.inl h
          · rcases List.mem_cons.1 h1 with h1 | h1
            · subst h1
              rw [hgx] at hk1
              injection hk1 with hk1
              exact absurd (hk1 ▸ hmem) hk2
            · exact Or.inr ⟨h1, k, hk1, hk2⟩
      · rw [addIfNew_of_fresh gk st x kx hgx hc, ih (st.1 ++ [x], st.2 ++ [kx]) r hndc.2]
        push_neg at hc
        constructor
        · rintro (h | ⟨h1, k, hk1, hk2⟩)
          · rcases List.mem_append.1 h with h | h
            · exact Or.inl h
            · rcases List.mem_singleton.1 h with h
              subst h
              exact Or.inr ⟨List.mem_cons_self _ _, kx, hgx, hc.2⟩
          · refine Or.inr ⟨List.mem_cons_of_mem _ h1, k, hk1, fun hmem => ?_⟩
            exact hk2 (List.mem_append_left _ hmem)
        · rintro (h | ⟨h1, k, hk1, hk2⟩)
          · exact Or.inl (List.mem_append_left _ h)
          · rcases List.mem_cons.1 h1 with h1 | h1
            · subst h1
              exact Or.inl (List.mem_append_right _ (List.mem_singleton.2 rfl))
            · refine Or.inr ⟨h1, k, hk1, fun hmem => ?_⟩
              rcases List.mem_append.1 hmem with hmem | hmem
              · exact hk2 hmem
              · rcases List.mem_singleton.1 hmem with hmem
                subst hmem
                exact hndc.1 (List.mem_filterMap.2 ⟨r, h1, hk1⟩)

/-- Membership characterization of mergeData when neither input list repeats a
key: the merged records are exactly the keyed local records together with the
keyed remote records whose key is absent locally. -/
theorem mergeData_mem_char (L R : List DataRec) (u : String)
    (hL : (L.filterMap (getKey u)).Nodup) (hR : (R.filterMap (getKey u)).Nodup)
    (r : DataRec) :
    r ∈ mergeData L R u ↔
      (r ∈ L ∧ ∃ k, getKey u r = some k) ∨
      (r ∈ R ∧ ∃ k, getKey u r = some k ∧ k ∉ L.filterMap (getKey u)) := by
  have hk := getKey_ne_empty u
  unfold mergeData
  rw [foldl_addIfNew_fst_mem (getKey u) hk R _ r hR,
    foldl_addIfNew_fst_mem (getKey u) hk L ([], []) r hL]
  have hsnd := fun k => foldl_addIfNew_snd_mem (getKey u) hk L ([], []) k
  constructor
  · rintro ((h | ⟨h1, k, hk1, _⟩) | ⟨h1, k, hk1, hk2⟩)
    · exact absurd h (List.not_mem_nil r)
    · exact Or.inl ⟨h1, k, hk1⟩
    · refine Or.inr ⟨h1, k, hk1, fun hmem => hk2 ?_⟩
      rw [hsnd k]
      simp [hmem]
  · rintro (⟨h1, k, hk1⟩ | ⟨h1, k, hk1, hk2⟩)
    · exact Or.inl (Or.inr ⟨h1, k, hk1, List.not_mem_nil k⟩)
    · refine Or.inr ⟨h1, k, hk1, fun hmem => hk2 ?_⟩
      have h2 := (hsnd k).1 hmem
      simpa using h2

/-! ### Claim C1 -/

/-- C1: for every local list L, remote list R and key spec, mergeData produces
no two records with the same key; a key occurs in the result exactly when it
occurs in L or in R, any such key occurs exactly once, and a merged record
whose key occurs in L is itself an L-side (local) record, so the local record
wins every collision. -/
theorem mergeData_key_correct (L R : List DataRec) (u : String) :
    ((mergeData L R u).filterMap (getKey u)).Nodup
    ∧ (∀ k, k ∈ (mergeData L R u).filterMap (getKey u) ↔
        k ∈ L.filterMap (getKey u) ∨ k ∈ R.filterMap (getKey u))
    ∧ (∀ k, k ∈ L.filterMap (getKey u) ∨ k ∈ R.filterMap (getKey u) →
        ((mergeData L R u).filterMap (getKey u)).count k = 1)
    ∧ (∀ r k, r ∈ mergeData L R u → getKey u r = some k →
        k ∈ L.filterMap (getKey u) → r ∈ L) := by
  have hk := getKey_ne_empty u
  have hM : mergeData L R u
      = (R.foldl (addIfNew (getKey u)) (L.foldl (addIfNew (getKey u)) ([], []))).1 := rfl
  have h1 := foldl_addIfNew_snd_eq (getKey u) L ([], []) (by simp)
  have h2 := foldl_addIfNew_snd_eq (getKey u) R (L.foldl (addIfNew (getKey u)) ([], [])) h1
  have hnd : (R.foldl (addIfNew (getKey u)) (L.foldl (addIfNew (getKey u)) ([], []))).2.Nodup :=
    foldl_addIfNew_snd_nodup _ R _ (foldl_addIfNew_snd_nodup _ L ([], []) (by simp))
  have hcov : ∀ k, k ∈ (mergeData L R u).filterMap (getKey u) ↔
      k ∈ L.filterMap (getKey u) ∨ k ∈ R.filterMap (getKey u) := by
    intro k
    rw [hM, ← h2, foldl_addIfNew_snd_mem (getKey u) hk R _ k,
      foldl_addIfNew_snd_mem (getKey u) hk L ([], []) k]
    simp
  have hndM : ((mergeData L R u).filterMap (getKey u)).Nodup := by
    rw [hM, ← h2]; exact hnd
  refine ⟨hndM, hcov, fun k hkmem => List.count_eq_one_of_mem hndM ((hcov k).2 hkmem), ?_⟩
  intro r k hr hgr hkL
  obtain ⟨t2, ht2a, ht2b⟩ := foldl_addIfNew_fst_append (getKey u) R
    (L.foldl (addIfNew (getKey u)) ([], []))
  obtain ⟨t1, ht1a, ht1b⟩ := foldl_addIfNew_fst_append (getKey u) L ([], [])
  rw [hM, ht2a] at hr
  rcases List.mem_append.1 hr with hr | hr
  · rw [ht1a] at hr
    simp only [List.nil_append] at hr
    exact (ht1b r hr).1
  · obtain ⟨k2, hk2a, hk2b⟩ := (ht2b r hr).2
    rw [hgr] at hk2a
    injection hk2a with hk2a
    subst hk2a
    exact absurd ((foldl_addIfNew_snd_mem (getKey u) hk L ([], []) k).2 (Or.inr hkL)) hk2b

/-- Concrete instance of mergeData_key_correct: the colliding key student_A of
the local record rAx occurs in the merge of [rAx] with [rAy], and the record
carrying it is the local one. -/
theorem mergeData_key_correct_instance :
    rAx ∈ mergeData [rAx] [rAy] "studentId"
    ∧ getKey "studentId" rAx = some "student_A"
    ∧ "student_A" ∈ ([rAx] : List DataRec).filterMap (getKey "studentId")
    ∧ rAx ∈ ([rAx] : List DataRec) :=
  ⟨by decide, by decide, by decide,
    (mergeData_key_correct [rAx] [rAy] "studentId").2.2.2 rAx "student_A"
      (by decide) (by decide) (by decide)⟩

/-! ### Claim C8 -/

/-- C8 fails as stated: mergeData is not order-independent on lists that
repeat a key.  Permuting the local list [rAx, rAy], whose two distinct records
share the key student_A, changes which record survives, so the resulting
record sets differ. -/
theorem mergeData_perm_counterexample :
    rAy ∈ mergeData [rAy, rAx] [] "studentId"
    ∧ rAy ∉ mergeData [rAx, rAy] [] "studentId"
    ∧ rAx ≠ rAy := by decide

/-- C8 (amended): mergeData is a deterministic pure function of its inputs,
and whenever no two local records share a key and no two remote records share
a key, permuting the local list or the remote list leaves the resulting record
set unchanged. -/
theorem mergeData_perm_invariant (L R L2 R2 : List DataRec) (u : String)
    (hL : (L.filterMap (getKey u)).Nodup) (hR : (R.filterMap (getKey u)).Nodup)
    (pL : L2.Perm L) (pR : R2.Perm R) (r : DataRec) :
    r ∈ mergeData L2 R2 u ↔ r ∈ mergeData L R u := by
  have hL2 : (L2.filterMap (getKey u)).Nodup := ((pL.filterMap (getKey u)).nodup_iff).2 hL
  have hR2 : (R2.filterMap (getKey u)).Nodup := ((pR.filterMap (getKey u)).nodup_iff).2 hR
  rw [mergeData_mem_char L2 R2 u hL2 hR2 r, mergeData_mem_char L R u hL hR r]
  simp only [pL.mem_iff, pR.mem_iff, (pL.filterMap (getKey u)).mem_iff]

/-- Concrete instance of mergeData_perm_invariant: with duplicate-free keys on
both sides, swapping the two local records does not change membership. -/
theorem mergeData_perm_invariant_instance :
    (([rBv, rAx] : List DataRec).Perm [rAx, rBv])
    ∧ (([rAx, rBv] : List DataRec).filterMap (getKey "studentId")).Nodup
    ∧ (([rAy] : List DataRec).filterMap (getKey "studentId")).Nodup
    ∧ (rAx ∈ mergeData [rBv, rAx] [rAy] "studentId" ↔
        rAx ∈ mergeData [rAx, rBv] [rAy] "studentId") :=
  ⟨by decide, by decide, by decide,
    mergeData_perm_invariant [rAx, rBv] [rAy] [rBv, rAx] [rAy] "studentId"
      (by decide) (by decide) (by decide) (by decide) rAx⟩

/-! ### Claim C10 -/

/-- C10: a record whose key function evaluates to null never appears in the
result of mergeData, whichever input list carries it. -/
theorem mergeData_drops_keyless (L R : List DataRec) (u : String) (r : DataRec)
    (h : getKey u r = none) : r ∉ mergeData L R u := by
  intro hr
  have hM : mergeData L R u
      = (R.foldl (addIfNew (getKey u)) (L.foldl (addIfNew (getKey u)) ([], []))).1 := rfl
  obtain ⟨t2, ht2a, ht2b⟩ := foldl_addIfNew_fst_append (getKey u) R
    (L.foldl (addIfNew (getKey u)) ([], []))
  obtain ⟨t1, ht1a, ht1b⟩ := foldl_addIfNew_fst_append (getKey u) L ([], [])
  rw [hM, ht2a] at hr
  rcases List.mem_append.1 hr with hr | hr
  · rw [ht1a] at hr
    simp only [List.nil_append] at hr
    obtain ⟨k, hk1, _⟩ := (ht1b r hr).2
    rw [h] at hk1
    exact Option.noConfusion hk1
  · obtain ⟨k, hk1, _⟩ := (ht2b r hr).2
    rw [h] at hk1
    exact Option.noConfusion hk1

/-- Concrete instance of mergeData_drops_keyless: a record with neither
studentId nor id is dropped by a merging fetch under the id key spec even
though it is present in the local list. -/
theorem mergeData_drops_keyless_instance :
    getKey "id" rNoKey = none ∧ rNoKey ∉ mergeData [rNoKey] [] "id" :=
  ⟨by decide, mergeData_drops_keyless [rNoKey] [] "id" rNoKey (by decide)⟩

/-! ### Claim C2 -/

theorem isDupMatch_pushNew (r : DataRec)
    (h : (truthyS r.id || truthyS r.studentId) = true) :
    isDupMatch r (pushNew r) = true := by
  have hp1 : (pushNew r).id = r.id := rfl
  have hp2 : (pushNew r).studentId = r.studentId := rfl
  have hp3 : (pushNew r).date = r.date := rfl
  have hp4 : (pushNew r).event = r.event := rfl
  unfold isDupMatch
  rw [hp1, hp2, hp3, hp4]
  cases hid : truthyS r.id with
  | true => simp [hid]
  | false =>
    have hsid : truthyS r.studentId = true := by simpa [hid] using h
    simp only [hid, hsid, Bool.false_and, Bool.true_and, Bool.and_self]
    split <;> simp

theorem updMerge_pushNew (r : DataRec) : updMerge (pushNew r) r = pushNew r := by
  obtain ⟨i, s, d, e, sy, ex⟩ := r
  cases i <;> cases s <;> cases d <;> cases e <;> cases sy <;> cases ex <;> rfl

theorem save_add_empty (r : DataRec) :
    saveToLocalStorage [] r LsOp.add = [pushNew r] := by
  simp [saveToLocalStorage]

theorem save_add_fixed (r : DataRec)
    (h : (truthyS r.id || truthyS r.studentId) = true) :
    saveToLocalStorage [pushNew r] r LsOp.add = [pushNew r] := by
  simp [saveToLocalStorage, isDupMatch_pushNew r h, updateFirst, updMerge_pushNew]

theorem exec_isOnline {ρ : Type} (st : SyncState) (opType : String) (data : DataRec)
    (c : Option String) (f : Bool) (outcome : Option ρ) :
    (executeWithOfflineSupport st opType data c f outcome).state.isOnline
      = st.isOnline := by
  unfold executeWithOfflineSupport
  cases outcome <;>
    cases hcoll : truthyS c <;>
      by_cases hon : (st.isOnline && f) = true <;>
        simp [hcoll, hon]

theorem offlineAddStep_store (opType cn : String) (r : DataRec) (st : SyncState)
    (hcn : cn ≠ "") (hoff : st.isOnline = false) :
    (offlineAddStep opType cn r st).store cn
      = saveToLocalStorage (st.store cn) r (deriveLsOp opType) := by
  have hcoll : truthyS (some cn) = true := by simp [truthyS, hcn]
  unfold offlineAddStep executeWithOfflineSupport
  simp [hcoll, hoff, storePut]

theorem offlineAddStep_iter (opType cn : String) (r : DataRec)
    (hcn : cn ≠ "") (hOp : deriveLsOp opType = LsOp.add)
    (hkey : (truthyS r.id || truthyS r.studentId) = true) :
    ∀ (m : Nat) (st : SyncState), st.isOnline = false → st.store cn = [pushNew r] →
      ((offlineAddStep opType cn r)^[m] st).store cn = [pushNew r] := by
  intro m
  induction m with
  | zero => intro st _ h2; simpa using h2
  | succ m ih =>
    intro st h1 h2
    rw [Function.iterate_succ_apply]
    apply ih
    · unfold offlineAddStep; rw [exec_isOnline]; exact h1
    · rw [offlineAddStep_store opType cn r st hcn h1, h2, hOp]
      exact save_add_fixed r hkey

/-- C2 fails as stated: two records that share the studentId key S but carry
different truthy ids are both kept by the offline add path, so after two
offline executes the stored collection holds two records with that key. -/
theorem offline_add_duplicate_counterexample :
    getKey "studentId" rIdX = getKey "studentId" rIdY
    ∧ ((offlineAddStep "addStudent" "students" rIdY
          (offlineAddStep "addStudent" "students" rIdX emptyState)).store "students").countP
        (fun item => item.studentId == some "S") = 2 := by decide

/-- C2 (amended): executing the offline add path n ≥ 1 times with the same
record r, where r carries a truthy id or a truthy studentId, leaves the stored
collection equal to the single defaulted record pushNew r — hence a fetch with
no connectivity returns exactly one record with r's key (the surviving record
matches r under the engine's own duplicate test).  Retries with a merely
key-equal record are not covered: distinct truthy ids defeat the duplicate
test, as offline_add_duplicate_counterexample shows. -/
theorem offline_add_idempotent (opType cn : String) (r : DataRec) (n : Nat)
    (st0 : SyncState) (hcn : cn ≠ "") (hOp : deriveLsOp opType = LsOp.add)
    (hkey : (truthyS r.id || truthyS r.studentId) = true)
    (hoff : st0.isOnline = false) (hinit : st0.store cn = [])
    (hn : 1 ≤ n) :
    ((offlineAddStep opType cn r)^[n] st0).store cn = [pushNew r]
    ∧ isDupMatch r (pushNew r) = true := by
  obtain ⟨m, rfl⟩ : ∃ m, n = m + 1 := ⟨n - 1, by omega⟩
  refine ⟨?_, isDupMatch_pushNew r hkey⟩
  rw [Function.iterate_succ_apply]
  apply offlineAddStep_iter opType cn r hcn hOp hkey m
  · unfold offlineAddStep; rw [exec_isOnline]; exact hoff
  · rw [offlineAddStep_store opType cn r st0 hcn hoff, hinit, hOp]
    exact save_add_empty r

/-- Concrete instance of offline_add_idempotent: two retried offline adds of
the same record leave exactly one stored copy. -/
theorem offline_add_idempotent_instance :
    ("students" ≠ "" ∧ deriveLsOp "addStudent" = LsOp.add
      ∧ (truthyS rAx.id || truthyS rAx.studentId) = true
      ∧ emptyState.isOnline = false ∧ emptyState.store "students" = [] ∧ 1 ≤ 2)
    ∧ ((offlineAddStep "addStudent" "students" rAx)^[2] emptyState).store "students"
        = [pushNew rAx] :=
  ⟨⟨by decide, by decide, by decide, rfl, rfl, by decide⟩,
    (offline_add_idempotent "addStudent" "students" rAx 2 emptyState (by decide)
      (by decide) (by decide) rfl rfl (by decide)).1⟩

/-! ### Claim C3 -/

/-- C3: every call naming a collection saves the record locally, with the verb
derived from the opType, as its first effect — before any remote attempt and
regardless of connectivity — and an offline call makes no remote attempt,
enqueues the operation directly, and leaves the saved record in the store. -/
theorem execute_local_first {ρ : Type} (st : SyncState) (opType : String)
    (data : DataRec) (cn : String) (f : Bool) (outcome : Option ρ)
    (hcn : cn ≠ "") :
    (executeWithOfflineSupport st opType data (some cn) f outcome).trace.head?
      = some (Ev.localSave cn (deriveLsOp opType))
    ∧ (st.isOnline = false →
        Ev.remoteAttempt ∉ (executeWithOfflineSupport st opType data (some cn) f outcome).trace
        ∧ (executeWithOfflineSupport st opType data (some cn) f outcome).state.queue
            = st.queue ++ [⟨opType, data, some cn, false⟩]
        ∧ (executeWithOfflineSupport st opType data (some cn) f outcome).state.store cn
            = saveToLocalStorage (st.store cn) data (deriveLsOp opType)) := by
  have hcoll : truthyS (some cn) = true := by simp [truthyS, hcn]
  constructor
  · unfold executeWithOfflineSupport
    cases outcome <;> by_cases hon : (st.isOnline && f) = true <;> simp [hcoll, hon]
  · intro hoff
    have hon : (st.isOnline && f) = false := by simp [hoff]
    unfold executeWithOfflineSupport
    cases outcome <;> simp [hcoll, hon, storePut]

/-- Concrete instance of execute_local_first on an offline call. -/
theorem execute_local_first_instance :
    ("attendance" ≠ "" ∧ emptyState.isOnline = false)
    ∧ (executeWithOfflineSupport emptyState "addAttendanceRecord" rAx
        (some "attendance") true (none : Option Nat)).trace.head?
      = some (Ev.localSave "attendance" (deriveLsOp "addAttendanceRecord"))
    ∧ Ev.remoteAttempt ∉ (executeWithOfflineSupport emptyState "addAttendanceRecord" rAx
        (some "attendance") true (none : Option Nat)).trace :=
  ⟨⟨by decide, rfl⟩,
    (execute_local_first emptyState "addAttendanceRecord" rAx "attendance" true
      (none : Option Nat) (by decide)).1,
    ((execute_local_first emptyState "addAttendanceRecord" rAx "attendance" true
      (none : Option Nat) (by decide)).2 rfl).1⟩

/-! ### Claim C4 -/

/-- C4: when a write executed online sees its remote call fail or time out
(the timeout race yields none), the caller receives the local collection's
contents rather than an error, the failed operation is enqueued, and the
earlier local write is intact in the store. -/
theorem execute_remote_failure_recovered {ρ : Type} (st : SyncState)
    (opType : String) (data : DataRec) (cn : String) (res : Option ρ)
    (timedOut : Bool) (hcn : cn ≠ "") (hon : st.isOnline = true)
    (hfail : resultWithTimeout res timedOut = none) :
    (executeWithOfflineSupport st opType data (some cn) true
        (resultWithTimeout res timedOut)).result
      = ExecRes.localData (saveToLocalStorage (st.store cn) data (deriveLsOp opType))
    ∧ (executeWithOfflineSupport st opType data (some cn) true
        (resultWithTimeout res timedOut)).state.queue
        = st.queue ++ [⟨opType, data, some cn, false⟩]
    ∧ (executeWithOfflineSupport st opType data (some cn) true
        (resultWithTimeout res timedOut)).state.store cn
        = saveToLocalStorage (st.store cn) data (deriveLsOp opType) := by
  have hcoll : truthyS (some cn) = true := by simp [truthyS, hcn]
  rw [hfail]
  unfold executeWithOfflineSupport
  simp [hcoll, hon, storePut]

/-- Concrete instance of execute_remote_failure_recovered: an online write
whose remote call times out returns the local data. -/
theorem execute_remote_failure_recovered_instance :
    ("students" ≠ "" ∧ onlineState.isOnline = true
      ∧ resultWithTimeout (some 7) true = (none : Option Nat))
    ∧ (executeWithOfflineSupport onlineState "addStudent" rAx (some "students") true
        (resultWithTimeout (some 7) true)).result
      = ExecRes.localData
          (saveToLocalStorage (onlineState.store "students") rAx (deriveLsOp "addStudent")) :=
  ⟨⟨by decide, rfl, rfl⟩,
    (execute_remote_failure_recovered onlineState "addStudent" rAx "students"
      (some 7) true (by decide) rfl rfl).1⟩

/-! ### Claim C5 -/

/-- C5: a drain request while a drain is in progress is a no-op leaving the
whole state (in particular the pending queue) untouched, and a drain that does
run leaves the guard released on every exit path. -/
theorem drain_exclusive_and_released (st : SyncState) (f : Bool)
    (o : PendingOp → Bool) :
    (st.syncInProgress = true → syncPendingData st f o = st)
    ∧ (st.syncInProgress = false → (syncPendingData st f o).syncInProgress = false) := by
  constructor
  · intro h
    simp [syncPendingData, h]
  · intro h
    unfold syncPendingData
    simp only [h]
    split_ifs <;> simp [h]

/-- Concrete instance of drain_exclusive_and_released: with a drain in
progress the call changes nothing. -/
theorem drain_exclusive_instance :
    busyState.syncInProgress = true
    ∧ syncPendingData busyState true (fun _ => true) = busyState :=
  ⟨rfl, (drain_exclusive_and_released busyState true (fun _ => true)).1 rfl⟩

/-! ### Claim C6 -/

theorem drain_mark_filter (o : PendingOp → Bool) :
    ∀ (l : List PendingOp), (∀ op ∈ l, op.synced = false) →
      ((l.map (fun op =>
          if op.synced then op else if o op then { op with synced := true } else op)).filter
        (fun op => !op.synced))
        = l.filter (fun op => !(o op)) := by
  intro l
  induction l with
  | nil => intro _; rfl
  | cons op l ih =>
    intro h
    have hop : op.synced = false := h op (List.mem_cons_self _ _)
    have ht := ih (fun x hx => h x (List.mem_cons_of_mem _ hx))
    cases ho : o op <;> simp [hop, ho, ht, List.filter_cons]

/-- C6: a drain pass never lengthens the pending queue, and a completed pass
over a queue of unsynced operations rewrites the durable queue in one batch to
exactly the operations whose attempt failed — the ones marked synced during
the pass are removed, every other one remains. -/
theorem drain_queue_batch (st : SyncState) (f : Bool) (o : PendingOp → Bool) :
    (syncPendingData st f o).queue.length ≤ st.queue.length
    ∧ ((∀ op ∈ st.queue, op.synced = false) → st.syncInProgress = false →
        st.isOnline = true → f = true →
        (syncPendingData st f o).queue = st.queue.filter (fun op => !(o op))) := by
  constructor
  · unfold syncPendingData
    split_ifs <;>
      simp [Nat.le_refl, le_trans (List.length_filter_le _ _) (le_of_eq (List.length_map _ _))]
  · intro hinv hflag hon hf
    subst hf
    unfold syncPendingData
    simp only [hflag, hon]
    cases hq : st.queue.isEmpty with
    | true =>
      have hq2 : st.queue = [] := List.isEmpty_iff.1 hq
      simp [hq2]
    | false =>
      simp [hq, drain_mark_filter o st.queue hinv]

/-- Concrete instance of drain_queue_batch: an all-successful pass over one
queued unsynced operation empties the queue. -/
theorem drain_queue_batch_instance :
    ((∀ op ∈ queuedState.queue, op.synced = false)
      ∧ queuedState.syncInProgress = false ∧ queuedState.isOnline = true)
    ∧ (syncPendingData queuedState true (fun _ => true)).queue
        = queuedState.queue.filter (fun op => !((fun _ : PendingOp => true) op)) :=
  ⟨⟨by decide, rfl, rfl⟩,
    (drain_queue_batch queuedState true (fun _ => true)).2 (by decide) rfl rfl rfl⟩

/-! ### Claim C7 -/

/-- C7 fails as stated: a browser online event delivered while the engine is
already online leaves the flag unchanged (no flip) yet still emits
notifications, because the event handler and its handleOnline continuation
both call triggerStatusUpdate unconditionally (lines 14-19 and 91-103). -/
theorem monitor_redundant_signal_counterexample :
    (deliverSignal true Signal.browserOnline).1 = true
    ∧ (deliverSignal true Signal.browserOnline).2 ≠ 0 := by decide

/-- C7 (amended): the periodic poll and the explicit status check notify
exactly when the online boolean actually flips, and the visibility and focus
checks never notify; the platform online/offline event handlers, by contrast,
notify unconditionally, even when the reported state equals the current one. -/
theorem monitor_flip_only_paths (b nav hid : Bool) :
    (nav = b → (deliverSignal b (Signal.poll nav)).2 = 0)
    ∧ (nav = b → (deliverSignal b (Signal.statusCheck nav)).2 = 0)
    ∧ (nav ≠ b → (deliverSignal b (Signal.poll nav)).2 ≠ 0)
    ∧ (nav ≠ b → (deliverSignal b (Signal.statusCheck nav)).2 ≠ 0)
    ∧ (deliverSignal b (Signal.visibilityChange hid)).2 = 0
    ∧ (deliverSignal b Signal.focus).2 = 0
    ∧ (deliverSignal b Signal.browserOnline).2 ≠ 0
    ∧ (deliverSignal b Signal.browserOffline).2 ≠ 0 := by
  cases b <;> cases nav <;> cases hid <;> decide

/-- Concrete instance of monitor_flip_only_paths: a poll reporting the
already-current online state emits nothing. -/
theorem monitor_flip_only_instance :
    ((true : Bool) = true) ∧ (deliverSignal true (Signal.poll true)).2 = 0 :=
  ⟨rfl, (monitor_flip_only_paths true true false).1 rfl⟩

/-! ### Claim C9 -/

/-- C9: the queue and collection readers always return a list: the empty list
when the stored value is absent and the empty list when the stored value does
not parse, with no exception escaping (both functions are total). -/
theorem storage_reads_total (ls : String → Option String)
    (parseQ : String → Option (List PendingOp))
    (parseR : String → Option (List DataRec)) (c : String) :
    (ls pendingSyncKey = none → getPendingSyncQueue ls parseQ = [])
    ∧ ((∀ s, parseQ s = none) → getPendingSyncQueue ls parseQ = [])
    ∧ ((∀ k, ls k = none) → getFromLocalStorage ls parseR c = [])
    ∧ ((∀ s, parseR s = none) → getFromLocalStorage ls parseR c = []) := by
  refine ⟨?_, ?_, ?_, ?_⟩
  · intro h
    simp [getPendingSyncQueue, h]
  · intro h
    unfold getPendingSyncQueue
    cases hq : ls pendingSyncKey with
    | none => rfl
    | some s => by_cases hs : (s == "") = true <;> simp [hs, h s]
  · intro h
    unfold getFromLocalStorage
    simp [h, truthyS]
  · intro h
    unfold getFromLocalStorage
    have hall : ∀ d : Option String,
        (match d with
          | none => ([] : List DataRec)
          | some s => if s == "" then [] else (parseR s).getD []) = [] := by
      intro d
      cases d with
      | none => rfl
      | some s => by_cases hs : (s == "") = true <;> simp [hs, h s]
    exact hall _

/-- Concrete instance of storage_reads_total: an unparsable stored queue reads
back as the empty list. -/
theorem storage_reads_total_instance :
    (∀ s : String, (fun _ : String => (none : Option (List PendingOp))) s = none)
    ∧ getPendingSyncQueue (fun _ => some "not json")
        (fun _ => (none : Option (List PendingOp))) = [] :=
  ⟨fun _ => rfl,
    (storage_reads_total (fun _ => some "not json")
      (fun _ => (none : Option (List PendingOp)))
      (fun _ => (none : Option (List DataRec))) "students").2.1 (fun _ => rfl)⟩

